/-
Verification of the day-trading-debunk backtesting core.

Shallow embedding of the trade-simulation components in Lean 4 over ℚ
(Python floats are modelled as exact rationals; timestamps are modelled as
bar indices, since the input index is strictly increasing with no
duplicates).  Sources embedded:

* src/src/backtest/position.py      (Position)
* src/src/backtest/portfolio.py     (Portfolio)
* src/src/backtest/engine.py        (BacktestEngine.run)
* src/src/backtest/metrics.py       (calculate_metrics: drawdown + trade stats)
* src/src/backtest/simple_backtest.py (SimpleBacktest)
* src/src/position_sizing/kelly.py  (KellySizer)
* src/src/position_sizing/simple_position_sizing.py (KellyPositionSizer)
* src/src/risk_management/trailing_stop.py (TrailingStop)
* src/src/risk_management/simple_risk_management.py (SimpleRiskManager)
-/
import Mathlib

namespace DayTrading

/-- `np.sign` on an integer signal, as a rational factor. -/
def isign (s : ℤ) : ℚ := if s > 0 then 1 else if s < 0 then -1 else 0

/-- Python `int(...)` conversion of a rational: truncation toward zero. -/
def pyInt (q : ℚ) : ℤ := if 0 ≤ q then ⌊q⌋ else -⌊-q⌋

/-! ## Position (src/src/backtest/position.py) -/

/-- `Position.__init__`: units (positive = long, negative = short, 0 = flat),
average entry price, entry time. -/
structure Position where
  units : ℚ
  entryPrice : ℚ
  entryTime : Option ℕ
  deriving DecidableEq, Repr

namespace Position

/-- Fresh position: flat, entry price 0.0, no entry time. -/
def init : Position := ⟨0, 0, none⟩

/-- `Position.enter_long`. -/
def enterLong (_p : Position) (units price : ℚ) (time : ℕ) : Position :=
  ⟨units, price, some time⟩

/-- `Position.enter_short`: stores `-units`. -/
def enterShort (_p : Position) (units price : ℚ) (time : ℕ) : Position :=
  ⟨-units, price, some time⟩

/-- `Position.exit_position`: zero the units and entry price, keep entry time. -/
def exitPosition (p : Position) : Position :=
  { p with units := 0, entryPrice := 0 }

/-- `Position.get_pnl`: unrealized P&L at `currentPrice`. -/
def getPnl (p : Position) (currentPrice : ℚ) : ℚ :=
  if p.units = 0 then 0
  else if p.units > 0 then p.units * (currentPrice - p.entryPrice)
  else -p.units * (p.entryPrice - currentPrice)

/-- `Position.is_long`. -/
def isLong (p : Position) : Prop := p.units > 0

/-- `Position.is_short`. -/
def isShort (p : Position) : Prop := p.units < 0

/-- `Position.is_flat`. -/
def isFlat (p : Position) : Prop := p.units = 0

instance (p : Position) : Decidable p.isLong := inferInstanceAs (Decidable (_ > _))
instance (p : Position) : Decidable p.isShort := inferInstanceAs (Decidable (_ < _))
instance (p : Position) : Decidable p.isFlat := inferInstanceAs (Decidable (_ = _))

end Position

/-! ## Portfolio (src/src/backtest/portfolio.py) -/

/-- Trade-record kind: the `'type'` string of the trade dict
(`'ENTER LONG' | 'ENTER SHORT' | 'EXIT LONG' | 'EXIT SHORT'`). -/
inductive TradeType where
  | enterLong | enterShort | exitLong | exitShort
  deriving DecidableEq, Repr

/-- One entry of `Portfolio.trades`.  `pnl` is present only on EXIT records
(the Python dict has no `'pnl'` key on entries). -/
structure Trade where
  ttype : TradeType
  time : ℕ
  price : ℚ
  units : ℚ
  pnl : Option ℚ
  capital : ℚ
  deriving DecidableEq, Repr

/-- `Portfolio.__init__`.  The equity curve dict is modelled as an ordered
association list; the engine feeds strictly increasing timestamps, so
appending coincides with dict insertion. -/
structure Portfolio where
  initialCapital : ℚ
  currentCapital : ℚ
  position : Position
  equityCurve : List (ℕ × ℚ)
  trades : List Trade
  currentPrice : ℚ
  currentTime : Option ℕ
  deriving DecidableEq, Repr

namespace Portfolio

/-- `Portfolio(initial_capital)`. -/
def init (initialCapital : ℚ) : Portfolio :=
  ⟨initialCapital, initialCapital, Position.init, [], [], 0, none⟩

/-- `Portfolio.update_price`: records the equity sample
`cash + unrealized P&L at price`. -/
def updatePrice (pf : Portfolio) (price : ℚ) (time : ℕ) : Portfolio :=
  { pf with
      currentPrice := price
      currentTime := some time
      equityCurve :=
        pf.equityCurve ++ [(time, pf.currentCapital + pf.position.getPnl price)] }

/-- `Portfolio._enter_long`: `units = current_capital * size / price`; cash is
not modified, only the trade is logged. -/
def enterLong (pf : Portfolio) (price : ℚ) (time : ℕ) (size : ℚ) : Portfolio :=
  let units := pf.currentCapital * size / price
  { pf with
      position := pf.position.enterLong units price time
      trades := pf.trades ++
        [⟨.enterLong, time, price, units, none, pf.currentCapital⟩] }

/-- `Portfolio._enter_short`. -/
def enterShort (pf : Portfolio) (price : ℚ) (time : ℕ) (size : ℚ) : Portfolio :=
  let units := pf.currentCapital * size / price
  { pf with
      position := pf.position.enterShort units price time
      trades := pf.trades ++
        [⟨.enterShort, time, price, units, none, pf.currentCapital⟩] }

/-- `Portfolio._close_position`: realizes P&L into cash and logs the exit. -/
def closePosition (pf : Portfolio) (price : ℚ) (time : ℕ) : Portfolio :=
  if pf.position.isFlat then pf
  else
    let pnl := pf.position.getPnl price
    let newCapital := pf.currentCapital + pnl
    let ttype : TradeType := if pf.position.isLong then .exitLong else .exitShort
    { pf with
        currentCapital := newCapital
        position := pf.position.exitPosition
        trades := pf.trades ++
          [⟨ttype, time, price, |pf.position.units|, some pnl, newCapital⟩] }

/-- `Portfolio.execute_signal`: close an opposite position first, then enter
if flat. -/
def executeSignal (pf : Portfolio) (signal : ℤ) (price : ℚ) (time : ℕ)
    (size : ℚ) : Portfolio :=
  let pf1 :=
    if signal = 1 ∧ pf.position.isShort then pf.closePosition price time
    else if signal = -1 ∧ pf.position.isLong then pf.closePosition price time
    else pf
  if signal = 1 ∧ pf1.position.isFlat then pf1.enterLong price time size
  else if signal = -1 ∧ pf1.position.isFlat then pf1.enterShort price time size
  else pf1

end Portfolio

/-! ## BacktestEngine (src/src/backtest/engine.py) -/

/-- Engine configuration (`BacktestEngine.__init__`). -/
structure EngineConfig where
  initialCapital : ℚ
  commission : ℚ
  slippage : ℚ
  deriving DecidableEq, Repr

/-- The price the engine marks and trades at for bar `i`: the close,
slippage-adjusted in the signal's direction when `i > 0` and the signal is
non-zero. -/
def markPrice (cfg : EngineConfig) (i : ℕ) (close : ℚ) (signal : ℤ) : ℚ :=
  if i > 0 ∧ signal ≠ 0 then close * (1 + cfg.slippage * isign signal) else close

/-- One iteration of the loop in `BacktestEngine.run`: mark the portfolio at
the (possibly slippage-adjusted) close, then, for `i > 0` and a non-zero
signal, execute at `adjusted_price * effective_commission` where
`effective_commission = 1 - commission` for buys and `1 + commission` for
sells. -/
def engineStep (cfg : EngineConfig) (pf : Portfolio) (i : ℕ) (close : ℚ)
    (signal : ℤ) : Portfolio :=
  let adjusted := markPrice cfg i close signal
  let pf1 := pf.updatePrice adjusted i
  if i > 0 ∧ signal ≠ 0 then
    let effCommission : ℚ := if signal > 0 then 1 - cfg.commission else 1 + cfg.commission
    pf1.executeSignal signal (adjusted * effCommission) i 1
  else pf1

/-- The engine loop from bar index `i` on.  A timestamp absent from the
signal frame is treated as signal 0 (§6 of the engine's contract). -/
def engineRunAux (cfg : EngineConfig) (signals : List ℤ) :
    Portfolio → ℕ → List ℚ → Portfolio
  | pf, _, [] => pf
  | pf, i, close :: rest =>
    engineRunAux cfg signals (engineStep cfg pf i close (signals.getD i 0)) (i + 1) rest

/-- `BacktestEngine.run`: iterate all bars starting from a fresh portfolio. -/
def engineRun (cfg : EngineConfig) (closes : List ℚ) (signals : List ℤ) : Portfolio :=
  engineRunAux cfg signals (Portfolio.init cfg.initialCapital) 0 closes

/-- `total_return = equity[-1] / equity[0] - 1` (from `calculate_metrics`). -/
def totalReturn (equity : List ℚ) : ℚ :=
  (equity.getLastD 0) / (equity.headD 0) - 1

/-- The total return the engine reports for a run: `calculate_metrics` applied
to the recorded equity-curve values. -/
def engineTotalReturn (cfg : EngineConfig) (closes : List ℚ) (signals : List ℤ) : ℚ :=
  totalReturn ((engineRun cfg closes signals).equityCurve.map Prod.snd)

/-! ## Metrics (src/src/backtest/metrics.py) -/

/-- `equity_curve.pct_change().dropna()`: simple returns of consecutive
samples. -/
def pctChange : List ℚ → List ℚ
  | [] => []
  | [_] => []
  | a :: b :: rest => (b / a - 1) :: pctChange (b :: rest)

/-- `(1 + returns).cumprod()` with running accumulator `acc`. -/
def cumprodAux (acc : ℚ) : List ℚ → List ℚ
  | [] => []
  | r :: rest => acc * (1 + r) :: cumprodAux (acc * (1 + r)) rest

/-- `cumulative_returns = (1 + returns).cumprod()`. -/
def cumulativeReturns (returns : List ℚ) : List ℚ := cumprodAux 1 returns

/-- `.cummax()` continued with current maximum `m`. -/
def cummaxAux (m : ℚ) : List ℚ → List ℚ
  | [] => []
  | c :: cs => max m c :: cummaxAux (max m c) cs

/-- `cumulative_returns.cummax()`. -/
def cummax : List ℚ → List ℚ
  | [] => []
  | c :: cs => c :: cummaxAux c cs

/-- `drawdown = 1 - cumulative_returns / cumulative_returns.cummax()`. -/
def drawdowns (returns : List ℚ) : List ℚ :=
  List.zipWith (fun c m => 1 - c / m)
    (cumulativeReturns returns) (cummax (cumulativeReturns returns))

/-- Pandas `.max()` over a series: maximum of the elements.  (On an empty
series pandas yields NaN; the claims only concern non-empty drawdown
series, where this definition agrees with the source.) -/
def listMax : List ℚ → ℚ
  | [] => 0
  | x :: xs => xs.foldl max x

/-- `max_drawdown = drawdown.max()` computed from an equity curve. -/
def maxDrawdown (equity : List ℚ) : ℚ :=
  listMax (drawdowns (pctChange equity))

/-- The trade-statistics block of `calculate_metrics`.  `profitFactor`
models the Python value: `none` stands for `float('inf')`. -/
structure TradeStats where
  winRate : ℚ
  avgWin : ℚ
  avgLoss : ℚ
  profitFactor : Option ℚ
  numberOfTrades : ℕ
  deriving DecidableEq, Repr

/-- The rows of `trades` whose `pnl` is strictly positive.  A missing `pnl`
(an ENTER record) is NaN in the DataFrame and satisfies neither `> 0` nor
`< 0`. -/
def winningTrades (trades : List Trade) : List Trade :=
  trades.filter fun t => match t.pnl with | some p => 0 < p | none => False

/-- The rows of `trades` whose `pnl` is strictly negative. -/
def losingTrades (trades : List Trade) : List Trade :=
  trades.filter fun t => match t.pnl with | some p => p < 0 | none => False

/-- Sum of the `pnl` column over a list of trades (missing values are NaN in
pandas; `winningTrades`/`losingTrades` rows always carry one). -/
def pnlSum (trades : List Trade) : ℚ :=
  (trades.map fun t => t.pnl.getD 0).sum

/-- The trade-metrics block of `calculate_metrics(equity_curve, trades)` for
a non-empty `trades` DataFrame:
`win_rate = len(winning) / len(trades)`,
`avg_win`/`avg_loss` are means over the winning/losing rows (0 when empty),
`profit_factor = abs(Σ win pnl / Σ loss pnl)` when there is at least one
losing row with non-zero sum, else `float('inf')`. -/
def tradeStats (trades : List Trade) : TradeStats :=
  let winning := winningTrades trades
  let losing := losingTrades trades
  { winRate := if trades.length > 0 then (winning.length : ℚ) / trades.length else 0
    avgWin := if winning.length > 0 then pnlSum winning / winning.length else 0
    avgLoss := if losing.length > 0 then pnlSum losing / losing.length else 0
    profitFactor :=
      if losing.length > 0 ∧ pnlSum losing ≠ 0 then some |pnlSum winning / pnlSum losing|
      else none
    numberOfTrades := trades.length }

/-! ## SimpleBacktest (src/src/backtest/simple_backtest.py) -/

/-- Kind of a `SimpleBacktest` trade record (`'OPEN'` / `'CLOSE'`). -/
inductive SBTradeType where
  | open_ | close_
  deriving DecidableEq, Repr

/-- One entry of the `trades` list built by `SimpleBacktest.run`. -/
structure SBTrade where
  time : ℕ
  ttype : SBTradeType
  price : ℚ
  shares : ℤ
  capital : ℚ
  deriving DecidableEq, Repr

/-- The loop state of `SimpleBacktest.run`: cash, current position in shares,
the equity list and the trade log. -/
structure SBState where
  capital : ℚ
  position : ℤ
  equity : List ℚ
  trades : List SBTrade
  deriving DecidableEq, Repr

/-- Configuration of `SimpleBacktest.__init__`. -/
structure SBConfig where
  initialCapital : ℚ
  commission : ℚ
  slippage : ℚ
  deriving DecidableEq, Repr

/-- `SimpleBacktest._execute_trade`: cost (for OPEN) or signed proceeds (for
CLOSE) of trading `shares` at `price`; `isOpen` selects the `"OPEN"` branch.
Note the function branches on the sign of the `shares` argument it is
*given*. -/
def sbExecuteTrade (cfg : SBConfig) (shares : ℤ) (price : ℚ) (isOpen : Bool) : ℚ :=
  let grossValue := |(shares : ℚ)| * price
  let slippageCost := grossValue * cfg.slippage
  let commissionCost := grossValue * cfg.commission
  if shares > 0 then
    let netCost := grossValue + slippageCost + commissionCost
    if isOpen then netCost else -netCost
  else
    let netProceeds := grossValue - slippageCost - commissionCost
    if isOpen then -netProceeds else netProceeds

/-- `SimpleBacktest._calculate_shares`: slippage-adjusted integer share
count, truncated toward zero like Python `int(...)`. -/
def sbCalculateShares (cfg : SBConfig) (tradeValue price : ℚ) (signal : ℤ) : ℤ :=
  let effectivePrice := price * (1 + cfg.slippage * isign signal)
  pyInt ((tradeValue / effectivePrice) * isign signal)

/-- The "close existing position if signal is opposite" block of the loop in
`SimpleBacktest.run`. -/
def sbCloseIfOpposite (cfg : SBConfig) (st : SBState) (i : ℕ) (price : ℚ)
    (signal : ℤ) : SBState :=
  if (signal > 0 ∧ st.position < 0) ∨ (signal < 0 ∧ st.position > 0) then
    let newCapital := st.capital + sbExecuteTrade cfg st.position price false
    { st with
        capital := newCapital
        trades := st.trades ++ [⟨i, .close_, price, -st.position, newCapital⟩]
        position := 0 }
  else st

/-- The "open new position if currently flat" block of the loop in
`SimpleBacktest.run` (default `position_sizer=None` path). -/
def sbOpenIfFlat (cfg : SBConfig) (posSize : ℚ) (st : SBState) (i : ℕ)
    (price : ℚ) (signal : ℤ) : SBState :=
  if st.position = 0 then
    let shares := sbCalculateShares cfg (st.capital * posSize) price signal
    if shares ≠ 0 then
      let cost := sbExecuteTrade cfg shares price true
      let newCapital := st.capital - cost
      { st with
          capital := newCapital
          position := st.position + shares
          trades := st.trades ++ [⟨i, .open_, price, shares, newCapital⟩] }
    else st
  else st

/-- One iteration of the loop in `SimpleBacktest.run`: record the equity
sample, then, when the signal is non-zero and `i > 0`, close an opposite
position and open a new one if flat. -/
def sbStep (cfg : SBConfig) (posSize : ℚ) (st : SBState) (i : ℕ) (price : ℚ)
    (signal : ℤ) : SBState :=
  let st := { st with equity := st.equity ++ [st.capital + (st.position : ℚ) * price] }
  if signal ≠ 0 ∧ i > 0 then
    sbOpenIfFlat cfg posSize (sbCloseIfOpposite cfg st i price signal) i price signal
  else st

/-- The bar loop of `SimpleBacktest.run` from index `i` on. -/
def sbLoopAux (cfg : SBConfig) (posSize : ℚ) (signals : List ℤ) :
    SBState → ℕ → List ℚ → SBState
  | st, _, [] => st
  | st, i, close :: rest =>
    sbLoopAux cfg posSize signals (sbStep cfg posSize st i close (signals.getD i 0))
      (i + 1) rest

/-- The state after the bar loop of `SimpleBacktest.run`. -/
def sbLoop (cfg : SBConfig) (posSize : ℚ) (closes : List ℚ) (signals : List ℤ) :
    SBState :=
  sbLoopAux cfg posSize signals ⟨cfg.initialCapital, 0, [], []⟩ 0 closes

/-- `SimpleBacktest.run` after the final-position block: if a position is
still open, `capital += _execute_trade(position, data['Close'].iloc[-1],
"CLOSE")` — nothing else changes. -/
def sbRun (cfg : SBConfig) (posSize : ℚ) (closes : List ℚ) (signals : List ℤ) :
    SBState :=
  let st := sbLoop cfg posSize closes signals
  if st.position ≠ 0 then
    { st with capital := st.capital + sbExecuteTrade cfg st.position (closes.getLastD 0) false }
  else st

/-! ## Kelly position sizers (src/src/position_sizing/kelly.py and
src/src/position_sizing/simple_position_sizing.py) -/

/-- `KellySizer._calculate_kelly`: `W - (1-W)/R`, clamped into `[0, 1]`. -/
def kellyCalculate (winRate winLossRatio : ℚ) : ℚ :=
  max 0 (min (winRate - (1 - winRate) / winLossRatio) 1)

/-- The allocation fraction applied by `KellySizer.calculate_position_size`
(default-parameter path, fewer than `lookback` historical trades):
`kelly_pct * fraction`, capped at 1.0 and floored at 0.0. -/
def kellySizerAllocation (winRate winLossRatio fraction : ℚ) : ℚ :=
  let kellyPct := kellyCalculate winRate winLossRatio
  let allocationPct := kellyPct * fraction
  let allocationPct := min allocationPct 1
  max allocationPct 0

/-- `KellySizer.calculate_position_size`: units of the trade. -/
def kellySizerSize (winRate winLossRatio fraction capital price : ℚ)
    (signal : ℤ) : ℚ :=
  if signal = 0 ∨ price ≤ 0 then 0
  else capital * kellySizerAllocation winRate winLossRatio fraction / price

/-- The allocation fraction applied by
`KellyPositionSizer.calculate_size` (simple_position_sizing.py):
`max(0, W - (1-W)/R) * kelly_fraction`, capped at 50% of capital. -/
def kellyPositionSizerAllocation (winRate winLossRatio kellyFraction : ℚ) : ℚ :=
  let kellyPct := max 0 (winRate - (1 - winRate) / winLossRatio)
  let allocationPct := kellyPct * kellyFraction
  min allocationPct (1 / 2)

/-- `KellyPositionSizer.calculate_size`. -/
def kellyPositionSizerSize (winRate winLossRatio kellyFraction capital price : ℚ)
    (signal : ℤ) : ℚ :=
  if signal = 0 ∨ price ≤ 0 then 0
  else capital * kellyPositionSizerAllocation winRate winLossRatio kellyFraction / price

/-! ## SimpleRiskManager (src/src/risk_management/simple_risk_management.py) -/

/-- The state of a `SimpleRiskManager`.  `lowestPrice` starts at
`float('inf')`, modelled as `⊤ : WithTop ℚ`. -/
structure SimpleRiskManager where
  stopLossPct : ℚ
  takeProfitPct : ℚ
  trailingStopPct : ℚ
  useTrailing : Bool
  entryPrice : ℚ
  positionType : ℤ
  stopPrice : ℚ
  takeProfitPrice : ℚ
  highestPrice : ℚ
  lowestPrice : WithTop ℚ
  deriving DecidableEq, Repr

namespace SimpleRiskManager

/-- `SimpleRiskManager.__init__`: the three percentages are silently clamped
(`max(lo, min(x, hi))`) into fixed ranges; no input is rejected. -/
def init (stopLossPct takeProfitPct trailingStopPct : ℚ) (useTrailing : Bool) :
    SimpleRiskManager :=
  { stopLossPct := max (5 / 1000) (min stopLossPct (2 / 10))
    takeProfitPct := max (1 / 100) (min takeProfitPct (5 / 10))
    trailingStopPct := max (5 / 1000) (min trailingStopPct (1 / 10))
    useTrailing := useTrailing
    entryPrice := 0
    positionType := 0
    stopPrice := 0
    takeProfitPrice := 0
    highestPrice := 0
    lowestPrice := ⊤ }

/-- `SimpleRiskManager._update_trailing_stop`. -/
def updateTrailingStop (rm : SimpleRiskManager) (price : ℚ) : SimpleRiskManager :=
  if rm.positionType = 1 then
    if price > rm.highestPrice then
      { rm with
          highestPrice := price
          stopPrice := max rm.stopPrice (price * (1 - rm.trailingStopPct)) }
    else rm
  else
    if (price : WithTop ℚ) < rm.lowestPrice then
      { rm with
          lowestPrice := (price : WithTop ℚ)
          stopPrice := min rm.stopPrice (price * (1 + rm.trailingStopPct)) }
    else rm

end SimpleRiskManager

/-! ## TrailingStop (src/src/risk_management/trailing_stop.py) -/

/-- `TrailingStopType`. -/
inductive TrailingStopType where
  | percent | fixed | atr
  deriving DecidableEq, Repr

/-- `TrailingStop` parameters and mutable state.  `lowestPrice` starts at
`float('inf')` (`⊤`). -/
structure TrailingStop where
  stopType : TrailingStopType
  value : ℚ
  activationPercent : ℚ
  atrMultiplier : ℚ
  isActive : Bool
  highestPrice : ℚ
  lowestPrice : WithTop ℚ
  currentStopPrice : ℚ
  deriving DecidableEq, Repr

namespace TrailingStop

/-- `TrailingStop.reset` (also the state part of `__init__`). -/
def reset (ts : TrailingStop) : TrailingStop :=
  { ts with isActive := false, highestPrice := 0, lowestPrice := ⊤, currentStopPrice := 0 }

/-- `TrailingStop._calculate_stop_price`.  `atr` is `data.get('atr')`.
Result `none` models the ATR branch with a missing/zero ATR, where the
source calls itself with unchanged arguments and never terminates
(a `RecursionError` in Python). -/
def calculateStopPrice (ts : TrailingStop) (referencePrice : ℚ) (positionType : ℤ)
    (atr : Option ℚ) : Option ℚ :=
  match ts.stopType with
  | .percent =>
    some (if positionType = 1 then referencePrice * (1 - ts.value)
          else referencePrice * (1 + ts.value))
  | .fixed =>
    some (if positionType = 1 then referencePrice - ts.value
          else referencePrice + ts.value)
  | .atr =>
    let a := atr.getD 0
    if a = 0 then none
    else some (if positionType = 1 then referencePrice - a * ts.atrMultiplier
               else referencePrice + a * ts.atrMultiplier)

/-- `TrailingStop.update`: returns the updated state (the Python method
mutates in place and returns the stop price).  `none` models divergence of
`_calculate_stop_price` (see above). -/
def update (ts : TrailingStop) (entryPrice currentPrice : ℚ) (positionType : ℤ)
    (atr : Option ℚ) : Option TrailingStop :=
  if positionType = 0 then some ts.reset
  else
    let activationThreshold := entryPrice * (1 + ts.activationPercent * positionType)
    if positionType = 1 then
      if ts.isActive = false then
        if currentPrice ≥ activationThreshold then
          (ts.calculateStopPrice currentPrice positionType atr).map fun sp =>
            { ts with isActive := true, highestPrice := currentPrice, currentStopPrice := sp }
        else
          (ts.calculateStopPrice entryPrice positionType atr).map fun sp =>
            { ts with currentStopPrice := sp }
      else
        if currentPrice > ts.highestPrice then
          (ts.calculateStopPrice currentPrice positionType atr).map fun newStop =>
            { ts with
                highestPrice := currentPrice
                currentStopPrice :=
                  if newStop > ts.currentStopPrice then newStop else ts.currentStopPrice }
        else some ts
    else
      if ts.isActive = false then
        if currentPrice ≤ activationThreshold then
          (ts.calculateStopPrice currentPrice positionType atr).map fun sp =>
            { ts with isActive := true, lowestPrice := (currentPrice : WithTop ℚ),
                      currentStopPrice := sp }
        else
          (ts.calculateStopPrice entryPrice positionType atr).map fun sp =>
            { ts with currentStopPrice := sp }
      else
        if (currentPrice : WithTop ℚ) < ts.lowestPrice then
          (ts.calculateStopPrice currentPrice positionType atr).map fun newStop =>
            { ts with
                lowestPrice := (currentPrice : WithTop ℚ)
                currentStopPrice :=
                  if newStop < ts.currentStopPrice then newStop else ts.currentStopPrice }
        else some ts

/-- A fresh percent/fixed/atr trailing stop
(`TrailingStop(stop_type, value, activation_percent, atr_multiplier)`). -/
def mk' (stopType : TrailingStopType) (value activationPercent atrMultiplier : ℚ) :
    TrailingStop :=
  ⟨stopType, value, activationPercent, atrMultiplier, false, 0, ⊤, 0⟩

/-- Folding `update` over a list of `(current_price, atr)` observations for a
fixed entry price and direction, starting from a given state. -/
def updateSeq (entryPrice : ℚ) (positionType : ℤ) (ts : TrailingStop) :
    List (ℚ × Option ℚ) → Option TrailingStop
  | [] => some ts
  | (p, a) :: rest =>
    match ts.update entryPrice p positionType a with
    | none => none
    | some ts' => updateSeq entryPrice positionType ts' rest

end TrailingStop

/-! ## Proof-layer helper definitions -/

/-- The stop price `_calculate_stop_price` yields for a long position as a
function of the reference price, for the given stop type and value (the ATR
case is irrelevant to the lemmas and mapped to the constant 0). -/
def longCalcF (sty : TrailingStopType) (v : ℚ) (r : ℚ) : ℚ :=
  match sty with
  | .percent => r * (1 - v)
  | .fixed => r - v
  | .atr => 0

/-- The stop price `_calculate_stop_price` yields for a short position. -/
def shortCalcF (sty : TrailingStopType) (v : ℚ) (r : ℚ) : ℚ :=
  match sty with
  | .percent => r * (1 + v)
  | .fixed => r + v
  | .atr => 0

/-- States of a long percent/fixed trailing stop reachable after at least one
`update` call with entry price `entry`: before activation the stop sits at the
entry-based level and no high has been recorded; after activation the stop is
at least the entry-based level. -/
def longInv (entry : ℚ) (ts : TrailingStop) : Prop :=
  (ts.isActive = false →
    ts.highestPrice = 0 ∧ ts.currentStopPrice = longCalcF ts.stopType ts.value entry) ∧
  (ts.isActive = true → longCalcF ts.stopType ts.value entry ≤ ts.currentStopPrice)

/-- Mirror image of `longInv` for a short position. -/
def shortInv (entry : ℚ) (ts : TrailingStop) : Prop :=
  (ts.isActive = false →
    ts.lowestPrice = ⊤ ∧ ts.currentStopPrice = shortCalcF ts.stopType ts.value entry) ∧
  (ts.isActive = true → ts.currentStopPrice ≤ shortCalcF ts.stopType ts.value entry)

/-! ## Theorems -/

/-- Claim C9: for every `win_rate ∈ (0,1)` and `win_loss_ratio > 0`, the Kelly
sizer's applied allocation fraction lies in `[0, allocation_ceiling]` — the
ceiling is 1/2 (50% of capital) for `KellyPositionSizer` and 1 (100%) for
`KellySizer`. -/
theorem claim9_kelly_allocation_bounded (W R f : ℚ)
    (hW0 : 0 < W) (hW1 : W < 1) (hR : 0 < R) (hf0 : 0 < f) (hf1 : f ≤ 1) :
    (0 ≤ kellyPositionSizerAllocation W R f ∧
      kellyPositionSizerAllocation W R f ≤ 1 / 2) ∧
    (0 ≤ kellySizerAllocation W R f ∧ kellySizerAllocation W R f ≤ 1) := by
  refine ⟨⟨?_, ?_⟩, ?_, ?_⟩
  · exact le_min (mul_nonneg (le_max_left 0 _) hf0.le) (by norm_num)
  · exact min_le_right _ _
  · exact le_max_right _ 0
  · exact max_le (le_trans (min_le_right _ _) le_rfl) zero_le_one

/-- Witness for C9 at `win_rate = 11/20`, `win_loss_ratio = 3/2`,
`fraction = 1/4`. -/
theorem claim9_witness :
    ((0 : ℚ) < 11 / 20 ∧ (11 : ℚ) / 20 < 1 ∧ (0 : ℚ) < 3 / 2 ∧ (0 : ℚ) < 1 / 4 ∧
      (1 : ℚ) / 4 ≤ 1) ∧
    ((0 ≤ kellyPositionSizerAllocation (11 / 20) (3 / 2) (1 / 4) ∧
       kellyPositionSizerAllocation (11 / 20) (3 / 2) (1 / 4) ≤ 1 / 2) ∧
     (0 ≤ kellySizerAllocation (11 / 20) (3 / 2) (1 / 4) ∧
       kellySizerAllocation (11 / 20) (3 / 2) (1 / 4) ≤ 1)) :=
  ⟨by norm_num,
   claim9_kelly_allocation_bounded (11 / 20) (3 / 2) (1 / 4) (by norm_num)
     (by norm_num) (by norm_num) (by norm_num) (by norm_num)⟩

/-- Claim C10: the `SimpleRiskManager` constructor never rejects its
percentage parameters: each is silently clamped — `stop_loss_pct` into
`[0.005, 0.2]`, `take_profit_pct` into `[0.01, 0.5]`, `trailing_stop_pct`
into `[0.005, 0.1]` — so the applied levels can differ from the configured
values (e.g. a configured 50% stop becomes 20%). -/
theorem claim10_srm_init_clamped (sl tp tr : ℚ) (u : Bool) :
    ((SimpleRiskManager.init sl tp tr u).stopLossPct
        = max (5 / 1000) (min sl (2 / 10)) ∧
      5 / 1000 ≤ (SimpleRiskManager.init sl tp tr u).stopLossPct ∧
      (SimpleRiskManager.init sl tp tr u).stopLossPct ≤ 2 / 10) ∧
    ((SimpleRiskManager.init sl tp tr u).takeProfitPct
        = max (1 / 100) (min tp (5 / 10)) ∧
      1 / 100 ≤ (SimpleRiskManager.init sl tp tr u).takeProfitPct ∧
      (SimpleRiskManager.init sl tp tr u).takeProfitPct ≤ 5 / 10) ∧
    ((SimpleRiskManager.init sl tp tr u).trailingStopPct
        = max (5 / 1000) (min tr (1 / 10)) ∧
      5 / 1000 ≤ (SimpleRiskManager.init sl tp tr u).trailingStopPct ∧
      (SimpleRiskManager.init sl tp tr u).trailingStopPct ≤ 1 / 10) ∧
    (SimpleRiskManager.init (1 / 2) (3 / 5) (2 / 10) false).stopLossPct ≠ 1 / 2 := by
  refine ⟨⟨rfl, le_max_left _ _, max_le (by norm_num) (min_le_right _ _)⟩,
    ⟨rfl, le_max_left _ _, max_le (by norm_num) (min_le_right _ _)⟩,
    ⟨rfl, le_max_left _ _, max_le (by norm_num) (min_le_right _ _)⟩, ?_⟩
  norm_num [SimpleRiskManager.init, min_def, max_def]

/-- Claim C2 (code bug): on the three-bar constant price series `[100, 100,
100]` with signals `[0, 1, -1]` (one long round trip) and zero slippage,
raising the commission from 0 to 1/10 raises `total_return` from 0 to 1/9:
`BacktestEngine.run` multiplies buy fills by `1 - commission` and sell fills
by `1 + commission`, so a larger commission makes buys cheaper and sells
dearer, increasing the reported return. -/
theorem claim2_code_eval :
    engineTotalReturn ⟨10000, 0, 0⟩ [100, 100, 100] [0, 1, -1] = 0 ∧
    engineTotalReturn ⟨10000, 1 / 10, 0⟩ [100, 100, 100] [0, 1, -1] = 1 / 9 ∧
    ((engineRun ⟨10000, 0, 0⟩ [100, 100, 100] [0, 1, -1]).trades.filter
        (fun t => t.ttype = .exitLong ∨ t.ttype = .exitShort)).length = 1 ∧
    ((engineRun ⟨10000, 1 / 10, 0⟩ [100, 100, 100] [0, 1, -1]).trades.filter
        (fun t => t.ttype = .exitLong ∨ t.ttype = .exitShort)).length = 1 ∧
    (0 : ℚ) < 1 / 9 := by
  norm_num [engineRun, engineRunAux, engineStep, markPrice, isign,
    Portfolio.init, Position.init, Portfolio.updatePrice, Portfolio.executeSignal,
    Portfolio.enterLong, Portfolio.enterShort, Portfolio.closePosition,
    Position.isFlat, Position.isLong, Position.isShort, Position.getPnl,
    Position.enterLong, Position.enterShort, Position.exitPosition,
    engineTotalReturn, totalReturn, List.getLastD, List.filter]
  decide

/-- Claim C6 (code bug): on the trades DataFrame of the repository's own
`test_calculate_metrics_trades` (three winning round trips logged as six
records, ENTER records carrying pnl 0), `calculate_metrics` divides the
number of winning rows by the number of *all* records: it reports
`win_rate = 1/2` and `number_of_trades = 6` where the test asserts `1.0`
and `3`; moreover `profit_factor` is `inf` (`none`) for a lone ENTER record
with no realized P&L at all. -/
theorem claim6_code_eval :
    (tradeStats
        [⟨.enterLong, 0, 100, 10, some 0, 10000⟩,
         ⟨.exitLong, 20, 110, 10, some 100, 10100⟩,
         ⟨.enterShort, 40, 110, 10, some 0, 10100⟩,
         ⟨.exitShort, 60, 100, 10, some 100, 10200⟩,
         ⟨.enterLong, 80, 100, 10, some 0, 10200⟩,
         ⟨.exitLong, 100, 120, 10, some 200, 10400⟩]).winRate = 1 / 2 ∧
    (1 : ℚ) / 2 ≠ 1 ∧
    (tradeStats
        [⟨.enterLong, 0, 100, 10, some 0, 10000⟩,
         ⟨.exitLong, 20, 110, 10, some 100, 10100⟩,
         ⟨.enterShort, 40, 110, 10, some 0, 10100⟩,
         ⟨.exitShort, 60, 100, 10, some 100, 10200⟩,
         ⟨.enterLong, 80, 100, 10, some 0, 10200⟩,
         ⟨.exitLong, 100, 120, 10, some 200, 10400⟩]).numberOfTrades = 6 ∧
    (6 : ℕ) ≠ 3 ∧
    (tradeStats [⟨.enterLong, 1, 100, 10, none, 10000⟩]).profitFactor = none ∧
    winningTrades [⟨.enterLong, 1, 100, 10, none, 10000⟩] = [] := by
  norm_num [tradeStats, winningTrades, losingTrades, pnlSum, List.filter]

/-- Claim C8 counterexample: `calculate_metrics` on the equity curve
`[100, 200, -100]` (equity can go negative after a losing short) reports
`max_drawdown = 3/2 > 1`, outside the claimed interval `[0, 1]`. -/
theorem claim8_counterexample :
    maxDrawdown [100, 200, -100] = 3 / 2 ∧ ¬maxDrawdown [100, 200, -100] ≤ 1 := by
  norm_num [maxDrawdown, drawdowns, cumulativeReturns, pctChange, cumprodAux,
    cummax, cummaxAux, listMax, max_def]

/-- Claim C7 counterexample: an ATR-type trailing stop on a long position,
before activation, recomputes its stop from the entry price with the current
ATR; two updates at the same price with ATR growing from 1 to 2 move the
stop from 98 down to 96 — the trailing stop loosens. -/
theorem claim7_counterexample :
    (TrailingStop.updateSeq 100 1 (TrailingStop.mk' .atr (2 / 100) (1 / 100) 2)
        [(201 / 2, some 1)]).map TrailingStop.currentStopPrice = some 98 ∧
    (TrailingStop.updateSeq 100 1 (TrailingStop.mk' .atr (2 / 100) (1 / 100) 2)
        [(201 / 2, some 1), (201 / 2, some 2)]).map TrailingStop.currentStopPrice
      = some 96 ∧
    (96 : ℚ) < 98 := by
  norm_num [TrailingStop.updateSeq, TrailingStop.update, TrailingStop.mk',
    TrailingStop.reset, TrailingStop.calculateStopPrice]

/-- Claim C1 counterexample: a reachable engine run (two bars at price 100,
a long entry on bar 1, zero commission and slippage) leaves
`current_capital` exactly at its initial 10000 after the entry trade —
`Portfolio._enter_long` logs the trade but does not decrease cash at all,
contradicting "every entry trade strictly decreases cash by the gross value
plus slippage plus commission". -/
theorem claim1_counterexample :
    (engineRun ⟨10000, 0, 0⟩ [100, 100] [0, 1]).trades
      = [⟨.enterLong, 1, 100, 100, none, 10000⟩] ∧
    (engineRun ⟨10000, 0, 0⟩ [100, 100] [0, 1]).currentCapital = 10000 := by
  norm_num [engineRun, engineRunAux, engineStep, markPrice, isign,
    Portfolio.init, Position.init, Portfolio.updatePrice, Portfolio.executeSignal,
    Portfolio.enterLong, Portfolio.enterShort, Portfolio.closePosition,
    Position.isFlat, Position.isLong, Position.isShort, Position.getPnl,
    Position.enterLong, Position.enterShort, Position.exitPosition]

/-- Claim C3 counterexample: `BacktestEngine.run` on two bars at price 100
with a long entry on bar 1 ends with the position still open and a trade
log containing no EXIT record — no force-close happens after the last
bar. -/
theorem claim3_counterexample :
    (engineRun ⟨10000, 0, 0⟩ [100, 100] [0, 1]).position.units ≠ 0 ∧
    ∀ t ∈ (engineRun ⟨10000, 0, 0⟩ [100, 100] [0, 1]).trades,
      t.ttype ≠ .exitLong ∧ t.ttype ≠ .exitShort := by
  norm_num [engineRun, engineRunAux, engineStep, markPrice, isign,
    Portfolio.init, Position.init, Portfolio.updatePrice, Portfolio.executeSignal,
    Portfolio.enterLong, Portfolio.enterShort, Portfolio.closePosition,
    Position.isFlat, Position.isLong, Position.isShort, Position.getPnl,
    Position.enterLong, Position.enterShort, Position.exitPosition]
  decide

/-- Claim C4 counterexample: with slippage 1/10 and signals `[0, 1, 1]` on
the constant close series `[100, 100, 100]`, the equity sample for bar 2 is
10000 (marked at the slippage-adjusted price 110), while cash plus the open
position's unrealized P&L at bar 2's close of 100 is `10000 - 10000/11` —
the recorded sample is not the claimed close-marked equity. -/
theorem claim4_counterexample :
    (engineRun ⟨10000, 0, 1 / 10⟩ [100, 100, 100] [0, 1, 1]).equityCurve.getD 2 (0, 0)
      = (2, 10000) ∧
    (engineRun ⟨10000, 0, 1 / 10⟩ [100, 100] [0, 1, 1]).currentCapital
        + (engineRun ⟨10000, 0, 1 / 10⟩ [100, 100] [0, 1, 1]).position.getPnl 100
      = 10000 - 10000 / 11 ∧
    ¬((10000 : ℚ) = 10000 - 10000 / 11) := by
  norm_num [engineRun, engineRunAux, engineStep, markPrice, isign,
    Portfolio.init, Position.init, Portfolio.updatePrice, Portfolio.executeSignal,
    Portfolio.enterLong, Portfolio.enterShort, Portfolio.closePosition,
    Position.isFlat, Position.isLong, Position.isShort, Position.getPnl,
    Position.enterLong, Position.enterShort, Position.exitPosition, List.getD]

/-- Claim C1 (amended): at most one position is open per Portfolio — a buy
signal while long, or a sell signal while short, changes nothing; entry
trades leave `current_capital` unchanged (the engine folds the costs into
the adjusted fill price); exits settle exactly the realized P&L into cash.
In `SimpleBacktest._execute_trade`, opening long costs
`gross * (1 + slippage + commission)`, opening short credits
`gross * (1 - slippage - commission)`, and — because `run` passes the
position's own sign when closing — closing a long *debits*
`gross * (1 + slippage + commission)` while closing a short *credits*
`gross * (1 - slippage - commission)`. -/
theorem claim1_amended (cfg : SBConfig) (pf : Portfolio) (price : ℚ) (t : ℕ)
    (size : ℚ) (shares : ℤ) :
    (pf.position.isLong → pf.executeSignal 1 price t size = pf) ∧
    (pf.position.isShort → pf.executeSignal (-1) price t size = pf) ∧
    (pf.position.isFlat →
      (pf.executeSignal 1 price t size).currentCapital = pf.currentCapital) ∧
    (pf.position.isFlat →
      (pf.executeSignal (-1) price t size).currentCapital = pf.currentCapital) ∧
    (pf.position.isLong →
      (pf.executeSignal (-1) price t size).currentCapital
        = pf.currentCapital + pf.position.getPnl price) ∧
    (pf.position.isShort →
      (pf.executeSignal 1 price t size).currentCapital
        = pf.currentCapital + pf.position.getPnl price) ∧
    (0 < shares → sbExecuteTrade cfg shares price true
        = |(shares : ℚ)| * price * (1 + cfg.slippage + cfg.commission)) ∧
    (shares < 0 → sbExecuteTrade cfg shares price true
        = -(|(shares : ℚ)| * price * (1 - cfg.slippage - cfg.commission))) ∧
    (0 < shares → sbExecuteTrade cfg shares price false
        = -(|(shares : ℚ)| * price * (1 + cfg.slippage + cfg.commission))) ∧
    (shares < 0 → sbExecuteTrade cfg shares price false
        = |(shares : ℚ)| * price * (1 - cfg.slippage - cfg.commission)) := by
  obtain ⟨ic, cc, ⟨u, ep, et⟩, eq, tr, cp, ct⟩ := pf
  refine ⟨?_, ?_, ?_, ?_, ?_, ?_, ?_, ?_, ?_, ?_⟩
  · intro h
    simp only [Position.isLong] at h
    simp [Portfolio.executeSignal, Position.isShort, Position.isFlat,
      not_lt.mpr h.le, h.ne']
  · intro h
    simp only [Position.isShort] at h
    simp [Portfolio.executeSignal, Position.isLong, Position.isFlat,
      not_lt.mpr h.le, h.ne]
  · intro h
    simp only [Position.isFlat] at h
    simp [Portfolio.executeSignal, Position.isShort, Position.isFlat, h,
      Portfolio.enterLong]
  · intro h
    simp only [Position.isFlat] at h
    simp [Portfolio.executeSignal, Position.isLong, Position.isFlat, h,
      Portfolio.enterShort]
  · intro h
    simp only [Position.isLong] at h
    simp [Portfolio.executeSignal, Portfolio.closePosition, Position.isLong,
      Position.isShort, Position.isFlat, Position.exitPosition,
      Portfolio.enterShort, h, h.ne', not_lt.mpr h.le]
  · intro h
    simp only [Position.isShort] at h
    simp [Portfolio.executeSignal, Portfolio.closePosition, Position.isLong,
      Position.isShort, Position.isFlat, Position.exitPosition,
      Portfolio.enterLong, h, h.ne, not_lt.mpr h.le]
  · intro h
    simp [sbExecuteTrade, h]
    ring
  · intro h
    simp [sbExecuteTrade, h, not_lt.mpr h.le, h.ne]
    ring
  · intro h
    simp [sbExecuteTrade, h]
    ring
  · intro h
    simp [sbExecuteTrade, h, not_lt.mpr h.le, h.ne]
    ring

/-- Witness for C1 at a fresh flat Portfolio (entry leaves cash at 10000)
and at `shares = 3` with slippage 1/2000, commission 1/1000. -/
theorem claim1_witness :
    ((Portfolio.init 10000).position.isFlat ∧
      ((Portfolio.init 10000).executeSignal 1 100 0 1).currentCapital
        = (Portfolio.init 10000).currentCapital) ∧
    ((0 : ℤ) < 3 ∧
      sbExecuteTrade ⟨100000, 1 / 1000, 1 / 2000⟩ 3 100 true
        = |((3 : ℤ) : ℚ)| * 100 * (1 + 1 / 2000 + 1 / 1000)) :=
  ⟨⟨by simp [Portfolio.init, Position.init, Position.isFlat],
    (claim1_amended ⟨100000, 1 / 1000, 1 / 2000⟩ (Portfolio.init 10000) 100 0 1 3).2.2.1
      (by simp [Portfolio.init, Position.init, Position.isFlat])⟩,
   ⟨by norm_num,
    (claim1_amended ⟨100000, 1 / 1000, 1 / 2000⟩ (Portfolio.init 10000) 100 0 1 3).2.2.2.2.2.2.1
      (by norm_num)⟩⟩

/-! ### Trade-log bookkeeping lemmas -/

theorem Portfolio.mem_closePosition_trades {pf : Portfolio} {price : ℚ} {time : ℕ}
    {t : Trade} (h : t ∈ (pf.closePosition price time).trades) :
    t ∈ pf.trades ∨ t.time = time := by
  unfold Portfolio.closePosition at h
  split at h
  · exact Or.inl h
  · simp only [List.mem_append, List.mem_singleton] at h
    rcases h with h | h
    · exact Or.inl h
    · right; rw [h]

theorem Portfolio.mem_enterLong_trades {pf : Portfolio} {price : ℚ} {time : ℕ}
    {size : ℚ} {t : Trade} (h : t ∈ (pf.enterLong price time size).trades) :
    t ∈ pf.trades ∨ t.time = time := by
  unfold Portfolio.enterLong at h
  simp only [List.mem_append, List.mem_singleton] at h
  rcases h with h | h
  · exact Or.inl h
  · right; rw [h]

theorem Portfolio.mem_enterShort_trades {pf : Portfolio} {price : ℚ} {time : ℕ}
    {size : ℚ} {t : Trade} (h : t ∈ (pf.enterShort price time size).trades) :
    t ∈ pf.trades ∨ t.time = time := by
  unfold Portfolio.enterShort at h
  simp only [List.mem_append, List.mem_singleton] at h
  rcases h with h | h
  · exact Or.inl h
  · right; rw [h]

theorem Portfolio.mem_executeSignal_trades {pf : Portfolio} {s : ℤ} {price : ℚ}
    {time : ℕ} {size : ℚ} {t : Trade}
    (h : t ∈ (pf.executeSignal s price time size).trades) :
    t ∈ pf.trades ∨ t.time = time := by
  simp only [Portfolio.executeSignal] at h
  split at h
  · split at h
    · rcases Portfolio.mem_enterLong_trades h with h1 | h1
      · exact Portfolio.mem_closePosition_trades h1
      · exact Or.inr h1
    · split at h
      · rcases Portfolio.mem_enterShort_trades h with h1 | h1
        · exact Portfolio.mem_closePosition_trades h1
        · exact Or.inr h1
      · exact Portfolio.mem_closePosition_trades h
  · split at h
    · split at h
      · rcases Portfolio.mem_enterLong_trades h with h1 | h1
        · exact Portfolio.mem_closePosition_trades h1
        · exact Or.inr h1
      · split at h
        · rcases Portfolio.mem_enterShort_trades h with h1 | h1
          · exact Portfolio.mem_closePosition_trades h1
          · exact Or.inr h1
        · exact Portfolio.mem_closePosition_trades h
    · split at h
      · rcases Portfolio.mem_enterLong_trades h with h1 | h1
        · exact Or.inl h1
        · exact Or.inr h1
      · split at h
        · rcases Portfolio.mem_enterShort_trades h with h1 | h1
          · exact Or.inl h1
          · exact Or.inr h1
        · exact Or.inl h

theorem mem_engineStep_trades {cfg : EngineConfig} {pf : Portfolio} {i : ℕ}
    {close : ℚ} {s : ℤ} {t : Trade}
    (h : t ∈ (engineStep cfg pf i close s).trades) :
    t ∈ pf.trades ∨ (t.time = i ∧ 0 < i) := by
  simp only [engineStep] at h
  split at h
  · next hc =>
    rcases Portfolio.mem_executeSignal_trades h with h1 | h1
    · exact Or.inl h1
    · exact Or.inr ⟨h1, hc.1⟩
  · exact Or.inl h

theorem mem_engineRunAux_trades (cfg : EngineConfig) (signals : List ℤ) :
    ∀ (closes : List ℚ) (pf : Portfolio) (i : ℕ),
      (∀ t ∈ pf.trades, 0 < t.time) →
      ∀ t ∈ (engineRunAux cfg signals pf i closes).trades, 0 < t.time := by
  intro closes
  induction closes with
  | nil => intro pf i hpf t ht; exact hpf t ht
  | cons c rest ih =>
    intro pf i hpf t ht
    refine ih _ _ ?_ t ht
    intro u hu
    rcases mem_engineStep_trades hu with h1 | h1
    · exact hpf u h1
    · rw [h1.1]; exact h1.2

theorem mem_sbCloseIfOpposite_trades {cfg : SBConfig} {st : SBState} {i : ℕ}
    {price : ℚ} {s : ℤ} {t : SBTrade}
    (h : t ∈ (sbCloseIfOpposite cfg st i price s).trades) :
    t ∈ st.trades ∨ t.time = i := by
  simp only [sbCloseIfOpposite] at h
  split at h
  · simp only [List.mem_append, List.mem_singleton] at h
    rcases h with h | h
    · exact Or.inl h
    · exact Or.inr (by rw [h])
  · exact Or.inl h

theorem mem_sbOpenIfFlat_trades {cfg : SBConfig} {posSize : ℚ} {st : SBState}
    {i : ℕ} {price : ℚ} {s : ℤ} {t : SBTrade}
    (h : t ∈ (sbOpenIfFlat cfg posSize st i price s).trades) :
    t ∈ st.trades ∨ t.time = i := by
  simp only [sbOpenIfFlat] at h
  split at h
  · split at h
    · simp only [List.mem_append, List.mem_singleton] at h
      rcases h with h | h
      · exact Or.inl h
      · exact Or.inr (by rw [h])
    · exact Or.inl h
  · exact Or.inl h

theorem mem_sbStep_trades {cfg : SBConfig} {posSize : ℚ} {st : SBState} {i : ℕ}
    {price : ℚ} {s : ℤ} {t : SBTrade}
    (h : t ∈ (sbStep cfg posSize st i price s).trades) :
    t ∈ st.trades ∨ (t.time = i ∧ 0 < i) := by
  simp only [sbStep] at h
  split at h
  · next hc =>
    rcases mem_sbOpenIfFlat_trades h with h1 | h1
    · rcases mem_sbCloseIfOpposite_trades h1 with h2 | h2
      · exact Or.inl h2
      · exact Or.inr ⟨h2, hc.2⟩
    · exact Or.inr ⟨h1, hc.2⟩
  · exact Or.inl h

theorem mem_sbLoopAux_trades (cfg : SBConfig) (posSize : ℚ) (signals : List ℤ) :
    ∀ (closes : List ℚ) (st : SBState) (i : ℕ),
      (∀ t ∈ st.trades, 0 < t.time) →
      ∀ t ∈ (sbLoopAux cfg posSize signals st i closes).trades, 0 < t.time := by
  intro closes
  induction closes with
  | nil => intro st i hst t ht; exact hst t ht
  | cons c rest ih =>
    intro st i hst t ht
    refine ih _ _ ?_ t ht
    intro u hu
    rcases mem_sbStep_trades hu with h1 | h1
    · exact hst u h1
    · rw [h1.1]; exact h1.2

theorem sbRun_trades_eq (cfg : SBConfig) (posSize : ℚ) (closes : List ℚ)
    (signals : List ℤ) :
    (sbRun cfg posSize closes signals).trades
      = (sbLoop cfg posSize closes signals).trades := by
  simp only [sbRun]
  split <;> rfl

/-- Claim C5: no trade record carries the first bar's timestamp — in both
engines, trades are only executed for bar indices `i > 0` (timestamps are
bar indices here, the input index being strictly increasing), so the first
bar can contribute an equity sample but never an entry or exit. -/
theorem claim5_no_first_bar_trades (cfg : EngineConfig) (scfg : SBConfig)
    (posSize : ℚ) (closes : List ℚ) (signals : List ℤ) :
    (∀ t ∈ (engineRun cfg closes signals).trades, t.time ≠ 0) ∧
    (∀ t ∈ (sbRun scfg posSize closes signals).trades, t.time ≠ 0) := by
  constructor
  · intro t ht
    have := mem_engineRunAux_trades cfg signals closes
      (Portfolio.init cfg.initialCapital) 0 (by simp [Portfolio.init]) t ht
    omega
  · intro t ht
    rw [sbRun_trades_eq] at ht
    have := mem_sbLoopAux_trades scfg posSize signals closes
      ⟨scfg.initialCapital, 0, [], []⟩ 0 (by simp) t ht
    omega

/-- Witness for C5: the long entry logged by the two-bar engine run carries
timestamp 1, not the first bar's 0. -/
theorem claim5_witness :
    (⟨TradeType.enterLong, 1, 100, 100, none, 10000⟩ : Trade).time ≠ 0 :=
  (claim5_no_first_bar_trades ⟨10000, 0, 0⟩ ⟨10000, 0, 0⟩ 1 [100, 100] [0, 1]).1
    ⟨TradeType.enterLong, 1, 100, 100, none, 10000⟩
    (by norm_num [engineRun, engineRunAux, engineStep, markPrice, isign,
      Portfolio.init, Position.init, Portfolio.updatePrice, Portfolio.executeSignal,
      Portfolio.enterLong, Portfolio.enterShort, Portfolio.closePosition,
      Position.isFlat, Position.isLong, Position.isShort, Position.getPnl,
      Position.enterLong, Position.enterShort, Position.exitPosition])

/-! ### SimpleBacktest final-close lemmas -/

theorem sbCloseIfOpposite_lastOpen {cfg : SBConfig} {st : SBState} {i : ℕ}
    {price : ℚ} {s : ℤ}
    (hinv : st.position ≠ 0 →
      ∃ tr, st.trades.getLast? = some tr ∧ tr.ttype = .open_) :
    (sbCloseIfOpposite cfg st i price s).position ≠ 0 →
      ∃ tr, (sbCloseIfOpposite cfg st i price s).trades.getLast? = some tr ∧
        tr.ttype = .open_ := by
  simp only [sbCloseIfOpposite]
  split
  · intro hpos; exact absurd rfl hpos
  · exact hinv

theorem sbOpenIfFlat_lastOpen {cfg : SBConfig} {posSize : ℚ} {st : SBState}
    {i : ℕ} {price : ℚ} {s : ℤ}
    (hinv : st.position ≠ 0 →
      ∃ tr, st.trades.getLast? = some tr ∧ tr.ttype = .open_) :
    (sbOpenIfFlat cfg posSize st i price s).position ≠ 0 →
      ∃ tr, (sbOpenIfFlat cfg posSize st i price s).trades.getLast? = some tr ∧
        tr.ttype = .open_ := by
  simp only [sbOpenIfFlat]
  split
  · split
    · intro _
      exact ⟨_, List.getLast?_concat _, rfl⟩
    · exact hinv
  · exact hinv

theorem sbStep_lastOpen {cfg : SBConfig} {posSize : ℚ} {st : SBState} {i : ℕ}
    {price : ℚ} {s : ℤ}
    (hinv : st.position ≠ 0 →
      ∃ tr, st.trades.getLast? = some tr ∧ tr.ttype = .open_) :
    (sbStep cfg posSize st i price s).position ≠ 0 →
      ∃ tr, (sbStep cfg posSize st i price s).trades.getLast? = some tr ∧
        tr.ttype = .open_ := by
  simp only [sbStep]
  split
  · exact sbOpenIfFlat_lastOpen (sbCloseIfOpposite_lastOpen hinv)
  · exact hinv

theorem sbLoopAux_lastOpen {cfg : SBConfig} {posSize : ℚ} {signals : List ℤ} :
    ∀ {closes : List ℚ} {st : SBState} {i : ℕ},
      (st.position ≠ 0 →
        ∃ tr, st.trades.getLast? = some tr ∧ tr.ttype = .open_) →
      (sbLoopAux cfg posSize signals st i closes).position ≠ 0 →
        ∃ tr, (sbLoopAux cfg posSize signals st i closes).trades.getLast? = some tr ∧
          tr.ttype = .open_ := by
  intro closes
  induction closes with
  | nil => intro st i hst; exact hst
  | cons c rest ih => intro st i hst; exact ih (sbStep_lastOpen hst)

/-- Claim C3 (amended): `SimpleBacktest.run` force-closes an open final
position — the final capital is the loop capital plus the CLOSE
cost/proceeds of `_execute_trade` at the last bar's close — but it appends
no trade record, so when a position was still open the trade log ends with
the OPEN record of that position, never with an EXIT.  (`BacktestEngine.run`
performs no force-close at all; see the counterexample.) -/
theorem claim3_amended (cfg : SBConfig) (posSize : ℚ) (closes : List ℚ)
    (signals : List ℤ) :
    (sbRun cfg posSize closes signals).trades
      = (sbLoop cfg posSize closes signals).trades ∧
    (sbRun cfg posSize closes signals).capital
      = (sbLoop cfg posSize closes signals).capital
        + (if (sbLoop cfg posSize closes signals).position ≠ 0 then
            sbExecuteTrade cfg (sbLoop cfg posSize closes signals).position
              (closes.getLastD 0) false
          else 0) ∧
    ((sbLoop cfg posSize closes signals).position ≠ 0 →
      ∃ tr, (sbRun cfg posSize closes signals).trades.getLast? = some tr ∧
        tr.ttype = .open_) := by
  refine ⟨sbRun_trades_eq cfg posSize closes signals, ?_, ?_⟩
  · simp only [sbRun]
    split
    · simp
    · simp_all
  · intro hpos
    rw [sbRun_trades_eq]
    exact sbLoopAux_lastOpen (by intro h; exact absurd rfl h) hpos

/-- Witness for C3: buy-and-hold on `[100, 100, 110]` (signals `[0, 1, 0]`,
zero costs) ends the loop with 1000 shares still held; the run's trade log
still ends with that OPEN record. -/
theorem claim3_witness :
    (sbLoop ⟨100000, 0, 0⟩ 1 [100, 100, 110] [0, 1, 0]).position ≠ 0 ∧
    ∃ tr, (sbRun ⟨100000, 0, 0⟩ 1 [100, 100, 110] [0, 1, 0]).trades.getLast?
        = some tr ∧ tr.ttype = .open_ :=
  ⟨by norm_num [sbLoop, sbLoopAux, sbStep, sbCloseIfOpposite, sbOpenIfFlat,
      sbCalculateShares, sbExecuteTrade, pyInt, isign],
   (claim3_amended ⟨100000, 0, 0⟩ 1 [100, 100, 110] [0, 1, 0]).2.2
     (by norm_num [sbLoop, sbLoopAux, sbStep, sbCloseIfOpposite, sbOpenIfFlat,
       sbCalculateShares, sbExecuteTrade, pyInt, isign])⟩

/-! ### Drawdown lemmas -/

theorem one_add_pctChange_pos : ∀ {e : List ℚ}, (∀ x ∈ e, 0 < x) →
    ∀ r ∈ pctChange e, 0 < 1 + r := by
  intro e
  induction e with
  | nil => simp [pctChange]
  | cons a rest ih =>
    cases rest with
    | nil => simp [pctChange]
    | cons b rest' =>
      intro he r hr
      rw [pctChange] at hr
      rcases List.mem_cons.mp hr with h | h
      · have ha : 0 < a := he a (by simp)
        have hb : 0 < b := he b (by simp)
        rw [h]
        have hba : 1 + (b / a - 1) = b / a := by ring
        rw [hba]
        exact div_pos hb ha
      · exact ih (fun x hx => he x (List.mem_cons_of_mem a hx)) r h

theorem cumprodAux_pos : ∀ {rs : List ℚ} {acc : ℚ}, 0 < acc →
    (∀ r ∈ rs, 0 < 1 + r) → ∀ c ∈ cumprodAux acc rs, 0 < c := by
  intro rs
  induction rs with
  | nil => simp [cumprodAux]
  | cons r rest ih =>
    intro acc hacc hrs c hc
    rw [cumprodAux] at hc
    have hr1 : 0 < 1 + r := hrs r (by simp)
    rcases List.mem_cons.mp hc with h | h
    · rw [h]; exact mul_pos hacc hr1
    · exact ih (mul_pos hacc hr1) (fun x hx => hrs x (by simp [hx])) c h

theorem zipWith_dd_cummaxAux_bounds : ∀ {cs : List ℚ} {m : ℚ},
    (∀ c ∈ cs, 0 < c) →
    ∀ d ∈ List.zipWith (fun c m => 1 - c / m) cs (cummaxAux m cs),
      0 ≤ d ∧ d < 1 := by
  intro cs
  induction cs with
  | nil => simp
  | cons c rest ih =>
    intro m hcs d hd
    rw [cummaxAux] at hd
    simp only [List.zipWith] at hd
    rcases List.mem_cons.mp hd with h | h
    · have hc : 0 < c := hcs c (by simp)
      have hmc : 0 < max m c := lt_of_lt_of_le hc (le_max_right m c)
      have hle : c / max m c ≤ 1 := (div_le_one hmc).mpr (le_max_right m c)
      have hgt : 0 < c / max m c := div_pos hc hmc
      constructor
      · rw [h]; linarith
      · rw [h]; linarith
    · exact ih (fun x hx => hcs x (by simp [hx])) d h

theorem drawdowns_bounds {rs : List ℚ} (hrs : ∀ r ∈ rs, 0 < 1 + r) :
    ∀ d ∈ drawdowns rs, 0 ≤ d ∧ d < 1 := by
  intro d hd
  unfold drawdowns at hd
  have hpos : ∀ c ∈ cumulativeReturns rs, 0 < c := fun c hc =>
    cumprodAux_pos one_pos hrs c hc
  cases hcr : cumulativeReturns rs with
  | nil => rw [hcr] at hd; simp [cummax] at hd
  | cons c cs =>
    rw [hcr] at hd
    rw [cummax] at hd
    simp only [List.zipWith] at hd
    rcases List.mem_cons.mp hd with h | h
    · have hc : 0 < c := by apply hpos; rw [hcr]; simp
      rw [h, div_self hc.ne']
      norm_num
    · refine zipWith_dd_cummaxAux_bounds ?_ d h
      intro x hx
      apply hpos
      rw [hcr]
      simp [hx]

theorem foldl_max_bounds : ∀ (xs : List ℚ) (x : ℚ), 0 ≤ x → x < 1 →
    (∀ y ∈ xs, 0 ≤ y ∧ y < 1) →
    0 ≤ xs.foldl max x ∧ xs.foldl max x < 1 := by
  intro xs
  induction xs with
  | nil => intro x h0 h1 _; exact ⟨h0, h1⟩
  | cons y ys ih =>
    intro x h0 h1 hys
    rw [List.foldl_cons]
    refine ih (max x y) (le_max_of_le_left h0) ?_ (fun z hz => hys z (by simp [hz]))
    exact max_lt h1 (hys y (by simp)).2

theorem pctChange_length : ∀ e : List ℚ, (pctChange e).length = e.length - 1 := by
  intro e
  induction e with
  | nil => rfl
  | cons a rest ih =>
    cases rest with
    | nil => rfl
    | cons b rest' =>
      rw [pctChange]
      simp only [List.length_cons]
      rw [ih]
      simp

theorem cumprodAux_length : ∀ (rs : List ℚ) (acc : ℚ),
    (cumprodAux acc rs).length = rs.length := by
  intro rs
  induction rs with
  | nil => intro acc; rfl
  | cons r rest ih =>
    intro acc
    rw [cumprodAux]
    simp [ih]

theorem cummaxAux_length : ∀ (cs : List ℚ) (m : ℚ),
    (cummaxAux m cs).length = cs.length := by
  intro cs
  induction cs with
  | nil => intro m; rfl
  | cons c rest ih =>
    intro m
    rw [cummaxAux]
    simp [ih]

theorem drawdowns_length (rs : List ℚ) : (drawdowns rs).length = rs.length := by
  unfold drawdowns
  cases hcr : cumulativeReturns rs with
  | nil =>
    have : rs.length = 0 := by
      have := cumprodAux_length rs 1
      rw [show cumprodAux 1 rs = cumulativeReturns rs from rfl, hcr] at this
      simpa using this.symm
    simp [cummax, this]
  | cons c cs =>
    rw [cummax]
    simp only [List.zipWith, List.length_cons, List.length_zipWith, cummaxAux_length]
    have := cumprodAux_length rs 1
    rw [show cumprodAux 1 rs = cumulativeReturns rs from rfl, hcr] at this
    simp only [List.length_cons] at this
    omega

/-- Claim C8 (amended): for every equity curve with at least two samples and
strictly positive equity values, the computed `max_drawdown` lies in
`[0, 1]` (in fact in `[0, 1)`).  Equity curves that reach a non-positive
value can exceed the bound (see the counterexample). -/
theorem claim8_amended (e : List ℚ) (h2 : 2 ≤ e.length)
    (hpos : ∀ x ∈ e, 0 < x) : 0 ≤ maxDrawdown e ∧ maxDrawdown e ≤ 1 := by
  have hdd := drawdowns_bounds (one_add_pctChange_pos hpos)
  have hlen : 1 ≤ (drawdowns (pctChange e)).length := by
    rw [drawdowns_length, pctChange_length]
    omega
  unfold maxDrawdown
  cases hd : drawdowns (pctChange e) with
  | nil => rw [hd] at hlen; simp at hlen
  | cons d ds =>
    rw [listMax]
    have hd0 := hdd d (by rw [hd]; simp)
    have hb := foldl_max_bounds ds d hd0.1 hd0.2
      (fun y hy => hdd y (by rw [hd]; simp [hy]))
    exact ⟨hb.1, hb.2.le⟩

/-- Witness for C8 on the positive equity curve `[1, 2, 1]`: its maximum
drawdown is 1/2, inside `[0, 1]`. -/
theorem claim8_witness :
    2 ≤ ([1, 2, 1] : List ℚ).length ∧ (∀ x ∈ ([1, 2, 1] : List ℚ), 0 < x) ∧
    (0 ≤ maxDrawdown [1, 2, 1] ∧ maxDrawdown [1, 2, 1] ≤ 1) :=
  ⟨by norm_num, by norm_num,
   claim8_amended [1, 2, 1] (by norm_num) (by norm_num)⟩

/-! ### Equity-curve characterization lemmas -/

theorem Portfolio.closePosition_equityCurve (pf : Portfolio) (price : ℚ)
    (time : ℕ) : (pf.closePosition price time).equityCurve = pf.equityCurve := by
  simp only [Portfolio.closePosition]
  split <;> rfl

theorem Portfolio.enterLong_equityCurve (pf : Portfolio) (price : ℚ) (time : ℕ)
    (size : ℚ) : (pf.enterLong price time size).equityCurve = pf.equityCurve := rfl

theorem Portfolio.enterShort_equityCurve (pf : Portfolio) (price : ℚ) (time : ℕ)
    (size : ℚ) : (pf.enterShort price time size).equityCurve = pf.equityCurve := rfl

theorem Portfolio.executeSignal_equityCurve (pf : Portfolio) (s : ℤ) (price : ℚ)
    (time : ℕ) (size : ℚ) :
    (pf.executeSignal s price time size).equityCurve = pf.equityCurve := by
  simp only [Portfolio.executeSignal]
  repeat' split
  all_goals
    simp [Portfolio.enterLong_equityCurve, Portfolio.enterShort_equityCurve,
      Portfolio.closePosition_equityCurve]

theorem engineStep_equityCurve (cfg : EngineConfig) (pf : Portfolio) (i : ℕ)
    (close : ℚ) (s : ℤ) :
    (engineStep cfg pf i close s).equityCurve
      = pf.equityCurve
        ++ [(i, pf.currentCapital + pf.position.getPnl (markPrice cfg i close s))] := by
  simp only [engineStep]
  split
  · rw [Portfolio.executeSignal_equityCurve]; rfl
  · rfl

theorem engineRunAux_equityCurve_prefix (cfg : EngineConfig) (signals : List ℤ) :
    ∀ (closes : List ℚ) (pf : Portfolio) (i : ℕ),
      ∃ tail, (engineRunAux cfg signals pf i closes).equityCurve
          = pf.equityCurve ++ tail ∧ tail.length = closes.length := by
  intro closes
  induction closes with
  | nil => intro pf i; exact ⟨[], by simp [engineRunAux]⟩
  | cons c rest ih =>
    intro pf i
    obtain ⟨tail, htail, hlen⟩ := ih (engineStep cfg pf i c (signals.getD i 0)) (i + 1)
    refine ⟨(i, pf.currentCapital + pf.position.getPnl (markPrice cfg i c (signals.getD i 0)))
        :: tail, ?_, by simp [hlen]⟩
    rw [engineRunAux, htail, engineStep_equityCurve]
    simp

theorem engineRunAux_append (cfg : EngineConfig) (signals : List ℤ) :
    ∀ (l1 l2 : List ℚ) (pf : Portfolio) (i : ℕ),
      engineRunAux cfg signals pf i (l1 ++ l2)
        = engineRunAux cfg signals (engineRunAux cfg signals pf i l1)
            (i + l1.length) l2 := by
  intro l1
  induction l1 with
  | nil => intro l2 pf i; simp [engineRunAux]
  | cons c rest ih =>
    intro l2 pf i
    rw [List.cons_append, engineRunAux, engineRunAux, ih]
    have harith : i + 1 + rest.length = i + (rest.length + 1) := by omega
    rw [harith]
    rfl

/-- Claim C4 (amended): the engine records exactly one equity sample per bar
(including bar 0), and the sample for bar `i` equals the cash held entering
the bar plus the unrealized P&L of the open position at the bar's *mark
price* — which is the slippage-adjusted close `close_i * (1 + slippage *
sign(signal_i))` whenever `i > 0` and `signal_i ≠ 0`, and the raw close
otherwise.  Commission never enters the marking. -/
theorem claim4_amended (cfg : EngineConfig) (closes : List ℚ) (signals : List ℤ)
    (i : ℕ) (hi : i < closes.length) :
    (engineRun cfg closes signals).equityCurve.length = closes.length ∧
    (engineRun cfg closes signals).equityCurve[i]?
      = some (i,
          (engineRun cfg (closes.take i) signals).currentCapital
            + (engineRun cfg (closes.take i) signals).position.getPnl
                (markPrice cfg i (closes.getD i 0) (signals.getD i 0))) := by
  have hlen : ∀ cs : List ℚ, (engineRun cfg cs signals).equityCurve.length = cs.length := by
    intro cs
    obtain ⟨tail, htail, hlen⟩ :=
      engineRunAux_equityCurve_prefix cfg signals cs (Portfolio.init cfg.initialCapital) 0
    unfold engineRun
    rw [htail]
    simp [Portfolio.init, hlen]
  refine ⟨hlen closes, ?_⟩
  have hsplit : closes = closes.take i ++ (closes.getD i 0 :: closes.drop (i + 1)) := by
    conv_lhs => rw [← List.take_append_drop i closes]
    rw [List.drop_eq_getElem_cons hi, List.getD_eq_getElem closes 0 hi]
  have hrun : engineRun cfg closes signals
      = engineRunAux cfg signals (engineRun cfg (closes.take i) signals) i
          (closes.getD i 0 :: closes.drop (i + 1)) := by
    conv_lhs => rw [hsplit]
    unfold engineRun
    rw [engineRunAux_append]
    congr 2
    simp [List.length_take, Nat.min_eq_left hi.le]
  rw [hrun, engineRunAux]
  obtain ⟨tail, htail, _⟩ := engineRunAux_equityCurve_prefix cfg signals
    (closes.drop (i + 1))
    (engineStep cfg (engineRun cfg (closes.take i) signals) i (closes.getD i 0)
      (signals.getD i 0)) (i + 1)
  rw [htail, engineStep_equityCurve]
  have hplen : (engineRun cfg (closes.take i) signals).equityCurve.length = i := by
    rw [hlen (closes.take i)]
    simp [List.length_take, Nat.min_eq_left hi.le]
  rw [List.append_assoc, List.getElem?_append_right (by omega), hplen]
  simp

/-- Witness for C4 at bar 2 of the run with slippage 1/10, closes
`[100, 100, 100]` and signals `[0, 1, 1]`. -/
theorem claim4_witness :
    2 < ([100, 100, 100] : List ℚ).length ∧
    ((engineRun ⟨10000, 0, 1 / 10⟩ [100, 100, 100] [0, 1, 1]).equityCurve.length
        = ([100, 100, 100] : List ℚ).length ∧
      (engineRun ⟨10000, 0, 1 / 10⟩ [100, 100, 100] [0, 1, 1]).equityCurve[2]?
        = some (2,
            (engineRun ⟨10000, 0, 1 / 10⟩ (([100, 100, 100] : List ℚ).take 2) [0, 1, 1]).currentCapital
              + (engineRun ⟨10000, 0, 1 / 10⟩ (([100, 100, 100] : List ℚ).take 2) [0, 1, 1]).position.getPnl
                  (markPrice ⟨10000, 0, 1 / 10⟩ 2 (([100, 100, 100] : List ℚ).getD 2 0)
                    (([0, 1, 1] : List ℤ).getD 2 0)))) :=
  ⟨by norm_num,
   claim4_amended ⟨10000, 0, 1 / 10⟩ [100, 100, 100] [0, 1, 1] 2 (by norm_num)⟩

/-! ### Trailing-stop lemmas -/

theorem calculateStopPrice_long {ts : TrailingStop} (hatr : ts.stopType ≠ .atr)
    (r : ℚ) (a : Option ℚ) :
    ts.calculateStopPrice r 1 a = some (longCalcF ts.stopType ts.value r) := by
  unfold TrailingStop.calculateStopPrice longCalcF
  cases hst : ts.stopType with
  | percent => simp
  | fixed => simp
  | atr => exact absurd hst hatr

theorem calculateStopPrice_short {ts : TrailingStop} (hatr : ts.stopType ≠ .atr)
    (r : ℚ) (a : Option ℚ) :
    ts.calculateStopPrice r (-1) a = some (shortCalcF ts.stopType ts.value r) := by
  unfold TrailingStop.calculateStopPrice shortCalcF
  cases hst : ts.stopType with
  | percent => norm_num
  | fixed => norm_num
  | atr => exact absurd hst hatr

theorem longCalcF_mono {sty : TrailingStopType} {v : ℚ} (h0 : 0 ≤ v)
    (h1 : sty = .percent → v ≤ 1) : Monotone (longCalcF sty v) := by
  cases sty with
  | percent =>
    intro x y hxy
    simp only [longCalcF]
    exact mul_le_mul_of_nonneg_right hxy (by linarith [h1 rfl])
  | fixed => intro x y hxy; simpa [longCalcF] using hxy
  | atr => intro x y _; simp [longCalcF]

theorem shortCalcF_mono {sty : TrailingStopType} {v : ℚ} (h0 : 0 ≤ v) :
    Monotone (shortCalcF sty v) := by
  cases sty with
  | percent =>
    intro x y hxy
    simp only [shortCalcF]
    exact mul_le_mul_of_nonneg_right hxy (by linarith)
  | fixed => intro x y hxy; simpa [shortCalcF] using hxy
  | atr => intro x y _; simp [shortCalcF]

theorem update_long_establish (ts : TrailingStop) (entry p : ℚ) (a : Option ℚ)
    (hatr : ts.stopType ≠ .atr)
    (hmono : Monotone (longCalcF ts.stopType ts.value))
    (hentry : 0 ≤ entry) (hact : 0 ≤ ts.activationPercent)
    (hIA : ts.isActive = false) (hHI : ts.highestPrice = 0) :
    ∃ ts', ts.update entry p 1 a = some ts' ∧
      ts'.stopType = ts.stopType ∧ ts'.value = ts.value ∧
      ts'.activationPercent = ts.activationPercent ∧
      longInv entry ts' ∧ ts.highestPrice ≤ ts'.highestPrice := by
  have hth : entry ≤ entry * (1 + ts.activationPercent * ((1 : ℤ) : ℚ)) := by
    push_cast
    nlinarith
  simp only [TrailingStop.update, show ((1 : ℤ) = 0) = False by simp,
    show ((1 : ℤ) = 1) = True by simp, if_false, if_true, longInv]
  split
  · split
    · next hge =>
      rw [calculateStopPrice_long hatr, Option.map_some']
      refine ⟨_, rfl, rfl, rfl, rfl, ⟨?_, ?_⟩, ?_⟩
      · intro hfalse; simp at hfalse
      · intro _
        exact hmono (le_trans hth hge)
      · show ts.highestPrice ≤ p
        rw [hHI]
        exact le_trans hentry (le_trans hth hge)
    · next hlt =>
      rw [calculateStopPrice_long hatr, Option.map_some']
      refine ⟨_, rfl, rfl, rfl, rfl, ⟨?_, ?_⟩, le_rfl⟩
      · intro _
        exact ⟨hHI, rfl⟩
      · intro htrue
        simp [hIA] at htrue
  · next h => exact absurd hIA h

theorem update_long_step (ts : TrailingStop) (entry p : ℚ) (a : Option ℚ)
    (hatr : ts.stopType ≠ .atr)
    (hmono : Monotone (longCalcF ts.stopType ts.value))
    (hentry : 0 ≤ entry) (hact : 0 ≤ ts.activationPercent)
    (hinv : longInv entry ts) :
    ∃ ts', ts.update entry p 1 a = some ts' ∧
      ts'.stopType = ts.stopType ∧ ts'.value = ts.value ∧
      ts'.activationPercent = ts.activationPercent ∧
      longInv entry ts' ∧ ts.currentStopPrice ≤ ts'.currentStopPrice ∧
      ts.highestPrice ≤ ts'.highestPrice := by
  have hth : entry ≤ entry * (1 + ts.activationPercent * ((1 : ℤ) : ℚ)) := by
    push_cast
    nlinarith
  unfold longInv at hinv
  simp only [TrailingStop.update, show ((1 : ℤ) = 0) = False by simp,
    show ((1 : ℤ) = 1) = True by simp, if_false, if_true, longInv]
  split
  · next hIA =>
    split
    · next hge =>
      rw [calculateStopPrice_long hatr, Option.map_some']
      refine ⟨_, rfl, rfl, rfl, rfl, ⟨?_, ?_⟩, ?_, ?_⟩
      · intro hfalse; simp at hfalse
      · intro _
        exact hmono (le_trans hth hge)
      · show ts.currentStopPrice ≤ longCalcF ts.stopType ts.value p
        rw [(hinv.1 hIA).2]
        exact hmono (le_trans hth hge)
      · show ts.highestPrice ≤ p
        rw [(hinv.1 hIA).1]
        exact le_trans hentry (le_trans hth hge)
    · next hlt =>
      rw [calculateStopPrice_long hatr, Option.map_some']
      refine ⟨_, rfl, rfl, rfl, rfl, ⟨?_, ?_⟩, ?_, le_rfl⟩
      · intro _
        exact ⟨(hinv.1 hIA).1, rfl⟩
      · intro htrue
        simp [hIA] at htrue
      · exact le_of_eq (hinv.1 hIA).2
  · next hIA =>
    have hT : ts.isActive = true := by revert hIA; cases ts.isActive <;> simp
    split
    · next hgt =>
      rw [calculateStopPrice_long hatr, Option.map_some']
      refine ⟨_, rfl, rfl, rfl, rfl, ⟨?_, ?_⟩, ?_, ?_⟩
      · intro hfalse; simp [hT] at hfalse
      · intro _
        show longCalcF ts.stopType ts.value entry ≤
          if longCalcF ts.stopType ts.value p > ts.currentStopPrice
          then longCalcF ts.stopType ts.value p else ts.currentStopPrice
        split
        · next h2 => exact le_trans (hinv.2 hT) h2.le
        · exact hinv.2 hT
      · show ts.currentStopPrice ≤
          if longCalcF ts.stopType ts.value p > ts.currentStopPrice
          then longCalcF ts.stopType ts.value p else ts.currentStopPrice
        split
        · next h2 => exact h2.le
        · exact le_rfl
      · exact hgt.le
    · exact ⟨ts, rfl, rfl, rfl, rfl, hinv, le_rfl, le_rfl⟩

theorem update_short_establish (ts : TrailingStop) (entry p : ℚ) (a : Option ℚ)
    (hatr : ts.stopType ≠ .atr)
    (hmono : Monotone (shortCalcF ts.stopType ts.value))
    (hentry : 0 ≤ entry) (hact : 0 ≤ ts.activationPercent)
    (hIA : ts.isActive = false) (hLO : ts.lowestPrice = ⊤) :
    ∃ ts', ts.update entry p (-1) a = some ts' ∧
      ts'.stopType = ts.stopType ∧ ts'.value = ts.value ∧
      ts'.activationPercent = ts.activationPercent ∧
      shortInv entry ts' ∧ ts'.lowestPrice ≤ ts.lowestPrice := by
  have hth : entry * (1 + ts.activationPercent * ((-1 : ℤ) : ℚ)) ≤ entry := by
    push_cast
    nlinarith
  simp only [TrailingStop.update, show ((-1 : ℤ) = 0) = False by simp,
    show ((-1 : ℤ) = 1) = False by simp, if_false, if_true, shortInv]
  split
  · split
    · next hle =>
      rw [calculateStopPrice_short hatr, Option.map_some']
      refine ⟨_, rfl, rfl, rfl, rfl, ⟨?_, ?_⟩, ?_⟩
      · intro hfalse; simp at hfalse
      · intro _
        exact hmono (le_trans hle hth)
      · show ((p : WithTop ℚ)) ≤ ts.lowestPrice
        rw [hLO]
        exact le_top
    · next hgt =>
      rw [calculateStopPrice_short hatr, Option.map_some']
      refine ⟨_, rfl, rfl, rfl, rfl, ⟨?_, ?_⟩, le_rfl⟩
      · intro _
        exact ⟨hLO, rfl⟩
      · intro htrue
        simp [hIA] at htrue
  · next h => exact absurd hIA h

theorem update_short_step (ts : TrailingStop) (entry p : ℚ) (a : Option ℚ)
    (hatr : ts.stopType ≠ .atr)
    (hmono : Monotone (shortCalcF ts.stopType ts.value))
    (hentry : 0 ≤ entry) (hact : 0 ≤ ts.activationPercent)
    (hinv : shortInv entry ts) :
    ∃ ts', ts.update entry p (-1) a = some ts' ∧
      ts'.stopType = ts.stopType ∧ ts'.value = ts.value ∧
      ts'.activationPercent = ts.activationPercent ∧
      shortInv entry ts' ∧ ts'.currentStopPrice ≤ ts.currentStopPrice ∧
      ts'.lowestPrice ≤ ts.lowestPrice := by
  have hth : entry * (1 + ts.activationPercent * ((-1 : ℤ) : ℚ)) ≤ entry := by
    push_cast
    nlinarith
  unfold shortInv at hinv
  simp only [TrailingStop.update, show ((-1 : ℤ) = 0) = False by simp,
    show ((-1 : ℤ) = 1) = False by simp, if_false, if_true, shortInv]
  split
  · next hIA =>
    split
    · next hle =>
      rw [calculateStopPrice_short hatr, Option.map_some']
      refine ⟨_, rfl, rfl, rfl, rfl, ⟨?_, ?_⟩, ?_, ?_⟩
      · intro hfalse; simp at hfalse
      · intro _
        exact hmono (le_trans hle hth)
      · show shortCalcF ts.stopType ts.value p ≤ ts.currentStopPrice
        rw [(hinv.1 hIA).2]
        exact hmono (le_trans hle hth)
      · show ((p : WithTop ℚ)) ≤ ts.lowestPrice
        rw [(hinv.1 hIA).1]
        exact le_top
    · next hgt =>
      rw [calculateStopPrice_short hatr, Option.map_some']
      refine ⟨_, rfl, rfl, rfl, rfl, ⟨?_, ?_⟩, ?_, le_rfl⟩
      · intro _
        exact ⟨(hinv.1 hIA).1, rfl⟩
      · intro htrue
        simp [hIA] at htrue
      · exact le_of_eq (hinv.1 hIA).2.symm
  · next hIA =>
    have hT : ts.isActive = true := by revert hIA; cases ts.isActive <;> simp
    split
    · next hlt =>
      rw [calculateStopPrice_short hatr, Option.map_some']
      refine ⟨_, rfl, rfl, rfl, rfl, ⟨?_, ?_⟩, ?_, ?_⟩
      · intro hfalse; simp [hT] at hfalse
      · intro _
        show (if shortCalcF ts.stopType ts.value p < ts.currentStopPrice
          then shortCalcF ts.stopType ts.value p else ts.currentStopPrice)
          ≤ shortCalcF ts.stopType ts.value entry
        split
        · next h2 => exact le_trans h2.le (hinv.2 hT)
        · exact hinv.2 hT
      · show (if shortCalcF ts.stopType ts.value p < ts.currentStopPrice
          then shortCalcF ts.stopType ts.value p else ts.currentStopPrice)
          ≤ ts.currentStopPrice
        split
        · next h2 => exact h2.le
        · exact le_rfl
      · exact hlt.le
    · exact ⟨ts, rfl, rfl, rfl, rfl, hinv, le_rfl, le_rfl⟩

theorem updateSeq_append (entry : ℚ) (pt : ℤ) :
    ∀ (l1 l2 : List (ℚ × Option ℚ)) (ts : TrailingStop),
      TrailingStop.updateSeq entry pt ts (l1 ++ l2)
        = (TrailingStop.updateSeq entry pt ts l1).bind
            (fun t => TrailingStop.updateSeq entry pt t l2) := by
  intro l1
  induction l1 with
  | nil => intro l2 ts; rfl
  | cons ob rest ih =>
    intro l2 ts
    obtain ⟨pr, aa⟩ := ob
    rw [List.cons_append]
    cases h : ts.update entry pr pt aa with
    | none => simp [TrailingStop.updateSeq, h]
    | some t' => simp [TrailingStop.updateSeq, h, ih l2 t']

theorem updateSeq_long_mono :
    ∀ (obs : List (ℚ × Option ℚ)) (ts : TrailingStop) (entry : ℚ),
      ts.stopType ≠ .atr → Monotone (longCalcF ts.stopType ts.value) →
      0 ≤ entry → 0 ≤ ts.activationPercent → longInv entry ts →
      ∃ ts', TrailingStop.updateSeq entry 1 ts obs = some ts' ∧
        ts'.stopType = ts.stopType ∧ ts'.value = ts.value ∧
        ts'.activationPercent = ts.activationPercent ∧
        longInv entry ts' ∧ ts.currentStopPrice ≤ ts'.currentStopPrice ∧
        ts.highestPrice ≤ ts'.highestPrice := by
  intro obs
  induction obs with
  | nil =>
    intro ts entry _ _ _ _ hinv
    exact ⟨ts, rfl, rfl, rfl, rfl, hinv, le_rfl, le_rfl⟩
  | cons ob rest ih =>
    intro ts entry hatr hmono hentry hact hinv
    obtain ⟨pr, aa⟩ := ob
    obtain ⟨t1, h1, hst, hv, hap, hinv1, hs1, hh1⟩ :=
      update_long_step ts entry pr aa hatr hmono hentry hact hinv
    obtain ⟨t2, h2, hst2, hv2, hap2, hinv2, hs2, hh2⟩ :=
      ih t1 entry (by rw [hst]; exact hatr)
        (by rw [hst, hv]; exact hmono) hentry (by rw [hap]; exact hact) hinv1
    refine ⟨t2, ?_, by rw [hst2, hst], by rw [hv2, hv], by rw [hap2, hap],
      hinv2, le_trans hs1 hs2, le_trans hh1 hh2⟩
    simp [TrailingStop.updateSeq, h1, h2]

theorem updateSeq_short_mono :
    ∀ (obs : List (ℚ × Option ℚ)) (ts : TrailingStop) (entry : ℚ),
      ts.stopType ≠ .atr → Monotone (shortCalcF ts.stopType ts.value) →
      0 ≤ entry → 0 ≤ ts.activationPercent → shortInv entry ts →
      ∃ ts', TrailingStop.updateSeq entry (-1) ts obs = some ts' ∧
        ts'.stopType = ts.stopType ∧ ts'.value = ts.value ∧
        ts'.activationPercent = ts.activationPercent ∧
        shortInv entry ts' ∧ ts'.currentStopPrice ≤ ts.currentStopPrice ∧
        ts'.lowestPrice ≤ ts.lowestPrice := by
  intro obs
  induction obs with
  | nil =>
    intro ts entry _ _ _ _ hinv
    exact ⟨ts, rfl, rfl, rfl, rfl, hinv, le_rfl, le_rfl⟩
  | cons ob rest ih =>
    intro ts entry hatr hmono hentry hact hinv
    obtain ⟨pr, aa⟩ := ob
    obtain ⟨t1, h1, hst, hv, hap, hinv1, hs1, hh1⟩ :=
      update_short_step ts entry pr aa hatr hmono hentry hact hinv
    obtain ⟨t2, h2, hst2, hv2, hap2, hinv2, hs2, hh2⟩ :=
      ih t1 entry (by rw [hst]; exact hatr)
        (by rw [hst, hv]; exact hmono) hentry (by rw [hap]; exact hact) hinv1
    refine ⟨t2, ?_, by rw [hst2, hst], by rw [hv2, hv], by rw [hap2, hap],
      hinv2, le_trans hs2 hs1, le_trans hh2 hh1⟩
    simp [TrailingStop.updateSeq, h1, h2]

theorem srmTrailing_long_mono (rm : SimpleRiskManager) (p : ℚ)
    (h : rm.positionType = 1) :
    rm.stopPrice ≤ (rm.updateTrailingStop p).stopPrice ∧
      rm.highestPrice ≤ (rm.updateTrailingStop p).highestPrice := by
  simp only [SimpleRiskManager.updateTrailingStop, h, eq_self_iff_true, if_true]
  split
  · next hgt => exact ⟨le_max_left _ _, hgt.le⟩
  · exact ⟨le_rfl, le_rfl⟩

theorem srmTrailing_short_mono (rm : SimpleRiskManager) (p : ℚ)
    (h : rm.positionType ≠ 1) :
    (rm.updateTrailingStop p).stopPrice ≤ rm.stopPrice ∧
      (rm.updateTrailingStop p).lowestPrice ≤ rm.lowestPrice := by
  simp only [SimpleRiskManager.updateTrailingStop, if_neg h]
  split
  · next hlt => exact ⟨min_le_left _ _, hlt.le⟩
  · exact ⟨le_rfl, le_rfl⟩

/-- Claim C7 (amended): for percent- and fixed-type trailing stops (value and
activation percent non-negative, percent value at most 1, non-negative entry
price), every update sequence moves the trailing reference only favorably
(the recorded high never decreases for longs, the recorded low never
increases for shorts) and the stop price returned by consecutive updates is
monotone — never decreasing for longs, never increasing for shorts; the
same monotonicity holds unconditionally for every
`SimpleRiskManager._update_trailing_stop` call.  (ATR-type stops violate
this; see the counterexample.) -/
theorem claim7_amended (sty : TrailingStopType) (v act mult entry : ℚ)
    (hsty : sty ≠ .atr) (hv0 : 0 ≤ v) (hv1 : sty = .percent → v ≤ 1)
    (hentry : 0 ≤ entry) (hact : 0 ≤ act) :
    (∀ (obs : List (ℚ × Option ℚ)) (ob : ℚ × Option ℚ), obs ≠ [] →
      ∃ ts1 ts2,
        TrailingStop.updateSeq entry 1 (TrailingStop.mk' sty v act mult) obs
            = some ts1 ∧
        TrailingStop.updateSeq entry 1 (TrailingStop.mk' sty v act mult)
            (obs ++ [ob]) = some ts2 ∧
        ts1.currentStopPrice ≤ ts2.currentStopPrice ∧
        ts1.highestPrice ≤ ts2.highestPrice) ∧
    (∀ (obs : List (ℚ × Option ℚ)) (ob : ℚ × Option ℚ), obs ≠ [] →
      ∃ ts1 ts2,
        TrailingStop.updateSeq entry (-1) (TrailingStop.mk' sty v act mult) obs
            = some ts1 ∧
        TrailingStop.updateSeq entry (-1) (TrailingStop.mk' sty v act mult)
            (obs ++ [ob]) = some ts2 ∧
        ts2.currentStopPrice ≤ ts1.currentStopPrice ∧
        ts2.lowestPrice ≤ ts1.lowestPrice) ∧
    (∀ (rm : SimpleRiskManager) (p : ℚ), rm.positionType = 1 →
      rm.stopPrice ≤ (rm.updateTrailingStop p).stopPrice ∧
        rm.highestPrice ≤ (rm.updateTrailingStop p).highestPrice) ∧
    (∀ (rm : SimpleRiskManager) (p : ℚ), rm.positionType ≠ 1 →
      (rm.updateTrailingStop p).stopPrice ≤ rm.stopPrice ∧
        (rm.updateTrailingStop p).lowestPrice ≤ rm.lowestPrice) := by
  have hmonoL : Monotone (longCalcF sty v) := longCalcF_mono hv0 hv1
  have hmonoS : Monotone (shortCalcF sty v) := shortCalcF_mono hv0
  refine ⟨?_, ?_, srmTrailing_long_mono, srmTrailing_short_mono⟩
  · intro obs ob hne
    obtain ⟨pb, ab⟩ := ob
    obtain ⟨⟨pr, aa⟩, rest, rfl⟩ : ∃ o r, obs = o :: r := by
      cases obs with
      | nil => exact absurd rfl hne
      | cons o r => exact ⟨o, r, rfl⟩
    obtain ⟨t0, h0, hst0, hval0, hap0, hinv0, _⟩ :=
      update_long_establish (TrailingStop.mk' sty v act mult)
        entry pr aa hsty hmonoL hentry hact rfl rfl
    obtain ⟨ts1, h1, hst1, hval1, hap1, hinv1, _, _⟩ :=
      updateSeq_long_mono rest t0 entry
        (by rw [hst0]; exact hsty) (by rw [hst0, hval0]; exact hmonoL) hentry
        (by rw [hap0]; exact hact) hinv0
    obtain ⟨ts2, h2, _, _, _, _, hs2, hh2⟩ :=
      update_long_step ts1 entry pb ab
        (by rw [hst1, hst0]; exact hsty)
        (by rw [hst1, hst0, hval1, hval0]; exact hmonoL)
        hentry (by rw [hap1, hap0]; exact hact) hinv1
    refine ⟨ts1, ts2, ?_, ?_, hs2, hh2⟩
    · simp [TrailingStop.updateSeq, h0, h1]
    · rw [List.cons_append]
      simp [TrailingStop.updateSeq, h0, updateSeq_append, h1, h2]
  · intro obs ob hne
    obtain ⟨pb, ab⟩ := ob
    obtain ⟨⟨pr, aa⟩, rest, rfl⟩ : ∃ o r, obs = o :: r := by
      cases obs with
      | nil => exact absurd rfl hne
      | cons o r => exact ⟨o, r, rfl⟩
    obtain ⟨t0, h0, hst0, hval0, hap0, hinv0, _⟩ :=
      update_short_establish (TrailingStop.mk' sty v act mult)
        entry pr aa hsty hmonoS hentry hact rfl rfl
    obtain ⟨ts1, h1, hst1, hval1, hap1, hinv1, _, _⟩ :=
      updateSeq_short_mono rest t0 entry
        (by rw [hst0]; exact hsty) (by rw [hst0, hval0]; exact hmonoS) hentry
        (by rw [hap0]; exact hact) hinv0
    obtain ⟨ts2, h2, _, _, _, _, hs2, hh2⟩ :=
      update_short_step ts1 entry pb ab
        (by rw [hst1, hst0]; exact hsty)
        (by rw [hst1, hst0, hval1, hval0]; exact hmonoS)
        hentry (by rw [hap1, hap0]; exact hact) hinv1
    refine ⟨ts1, ts2, ?_, ?_, hs2, hh2⟩
    · simp [TrailingStop.updateSeq, h0, h1]
    · rw [List.cons_append]
      simp [TrailingStop.updateSeq, h0, updateSeq_append, h1, h2]

/-- Witness for C7: a 2% percent trailing stop (1% activation) on a long
entered at 100, updated at 102 and then 105. -/
theorem claim7_witness :
    (TrailingStopType.percent ≠ TrailingStopType.atr ∧ (0 : ℚ) ≤ 1 / 50 ∧
      (0 : ℚ) ≤ 100 ∧ (0 : ℚ) ≤ 1 / 100) ∧
    ∃ ts1 ts2,
      TrailingStop.updateSeq 100 1
          (TrailingStop.mk' .percent (1 / 50) (1 / 100) 2) [(102, none)]
        = some ts1 ∧
      TrailingStop.updateSeq 100 1
          (TrailingStop.mk' .percent (1 / 50) (1 / 100) 2)
          ([(102, none)] ++ [(105, none)]) = some ts2 ∧
      ts1.currentStopPrice ≤ ts2.currentStopPrice ∧
      ts1.highestPrice ≤ ts2.highestPrice :=
  ⟨⟨by decide, by norm_num, by norm_num, by norm_num⟩,
   (claim7_amended .percent (1 / 50) (1 / 100) 2 100 (by decide) (by norm_num)
      (fun _ => by norm_num) (by norm_num) (by norm_num)).1
     [(102, none)] (105, none) (by simp)⟩

end DayTrading
